import Mathlib

/-!
Verification of the acquisition-and-caching core of the GitHub time-lapse
analyzer (`src/data_fetcher.py`, `src/utils.py`, `src/config.py`), as a
shallow embedding in Lean 4.  Machine integers are modelled as `Nat`/`Int`
(no overflow is relevant here), fallible code returns `Except`, and the
side effects of the retry loop and of the fetch orchestrator (sleeps,
rate-limit checks, cache writes) are recorded as explicit event traces.
-/

deriving instance DecidableEq for Except

namespace GithubTimeLapse

/-! ## Retry/backoff executor (`GitHubDataFetcher._retry_on_failure`)

The wrapped operation is modelled as a function from the invocation index
(0-based: how many times `func` has been called before) to the outcome of
that invocation.  The Python loop `for attempt in range(RETRY_ATTEMPTS)`
calls `func` exactly once per iteration, so invocation `i` happens at loop
variable `attempt = i`. -/

/-- Outcome of a single invocation of the wrapped operation: success with a
value, `RateLimitExceededException`, a `GithubException` carrying an HTTP
status, or any other exception. -/
inductive CallOutcome (α : Type) where
  | success (v : α)
  | rateLimitExceeded
  | githubExc (status : Nat)
  | otherExc
deriving DecidableEq, Repr

/-- Exception escaping `_retry_on_failure`: a re-raised `GithubException`,
a re-raised generic exception, or the final
`Exception("All retry attempts failed")` raised after the loop. -/
inductive Exc where
  | github (status : Nat)
  | generic
  | allRetriesFailed
deriving DecidableEq, Repr

/-- Result of `_retry_on_failure`: a returned value or a raised exception. -/
inductive RetryRes (α : Type) where
  | ok (v : α)
  | raised (e : Exc)
deriving DecidableEq, Repr

/-- Observable side effects of the retry loop: `self._check_rate_limit()`
and `time.sleep(seconds)`. -/
inductive Effect where
  | checkRateLimit
  | sleep (seconds : Nat)
deriving DecidableEq, Repr

/-- What a run of `_retry_on_failure` produced: the result, the ordered
trace of side effects, and how many times the wrapped operation was
invoked. -/
structure RetryOutcome (α : Type) where
  result : RetryRes α
  trace : List Effect
  calls : Nat
deriving DecidableEq, Repr

/-- One loop of `_retry_on_failure` (data_fetcher.py lines 86-106),
with `remaining` iterations left and current loop variable `attempt`
(invariant at every call from `retry_on_failure`:
`attempt + remaining = RETRY_ATTEMPTS`, so the Python guard
`attempt == RETRY_ATTEMPTS - 1` is `remaining = 1`, i.e. the predecessor
bound in the `remaining + 1` pattern is `0`).
Branches, in the source's order:
`except RateLimitExceededException` calls `_check_rate_limit()` and falls
through to the next iteration (the loop variable still advances);
`except GithubException` sleeps `RETRY_DELAY * 2 ** attempt` when
`status == 403`, re-raises on the last attempt, and otherwise sleeps the
same backoff; `except Exception` re-raises on the last attempt and
otherwise sleeps the backoff.  When the loop finishes,
`Exception("All retry attempts failed")` is raised. -/
def retryLoop (op : Nat → CallOutcome α) (delay : Nat) :
    Nat → Nat → RetryOutcome α
  | 0, _ => ⟨.raised .allRetriesFailed, [], 0⟩
  | remaining + 1, attempt =>
    match op attempt with
    | .success v => ⟨.ok v, [], 1⟩
    | .rateLimitExceeded =>
      let rest := retryLoop op delay remaining (attempt + 1)
      ⟨rest.result, .checkRateLimit :: rest.trace, rest.calls + 1⟩
    | .githubExc status =>
      if status = 403 then
        let rest := retryLoop op delay remaining (attempt + 1)
        ⟨rest.result, .sleep (delay * 2 ^ attempt) :: rest.trace, rest.calls + 1⟩
      else if remaining = 0 then
        ⟨.raised (.github status), [], 1⟩
      else
        let rest := retryLoop op delay remaining (attempt + 1)
        ⟨rest.result, .sleep (delay * 2 ^ attempt) :: rest.trace, rest.calls + 1⟩
    | .otherExc =>
      if remaining = 0 then
        ⟨.raised .generic, [], 1⟩
      else
        let rest := retryLoop op delay remaining (attempt + 1)
        ⟨rest.result, .sleep (delay * 2 ^ attempt) :: rest.trace, rest.calls + 1⟩

/-- `RETRY_ATTEMPTS` (config.py line 107). -/
def RETRY_ATTEMPTS : Nat := 3

/-- `RETRY_DELAY` in seconds (config.py line 108). -/
def RETRY_DELAY : Nat := 2

/-- `_retry_on_failure(func, ...)`: run the loop from `attempt = 0` with
`attempts` iterations available. -/
def retry_on_failure (op : Nat → CallOutcome α) (delay attempts : Nat) :
    RetryOutcome α :=
  retryLoop op delay attempts 0

/-- A non-quota-exceeded failure: a generic exception or a
`GithubException` (with any status, 403 included). -/
def isTransientFailure (o : CallOutcome α) : Prop :=
  o = .otherExc ∨ ∃ s, o = .githubExc s

lemma retryLoop_transient_then_success (op : Nat → CallOutcome α) (delay : Nat) :
    ∀ (k remaining attempt : Nat) (v : α), k < remaining →
      (∀ i, i < k → isTransientFailure (op (attempt + i))) →
      op (attempt + k) = .success v →
      retryLoop op delay remaining attempt =
        ⟨.ok v, (List.range k).map (fun i => .sleep (delay * 2 ^ (attempt + i))),
          k + 1⟩ := by
  intro k
  induction k with
  | zero =>
    intro remaining attempt v hk _ hsucc
    obtain ⟨r, rfl⟩ := Nat.exists_eq_succ_of_ne_zero (Nat.pos_iff_ne_zero.mp hk)
    simp only [Nat.add_zero] at hsucc
    simp [retryLoop, hsucc]
  | succ k ih =>
    intro remaining attempt v hk hfail hsucc
    obtain ⟨r, rfl⟩ := Nat.exists_eq_succ_of_ne_zero
      (Nat.pos_iff_ne_zero.mp (Nat.lt_of_lt_of_le (Nat.zero_lt_succ k) (Nat.le_of_lt hk)))
    have hr : k < r := Nat.lt_of_succ_lt_succ hk
    have hr0 : r ≠ 0 := Nat.pos_iff_ne_zero.mp (Nat.lt_of_le_of_lt (Nat.zero_le k) hr)
    have hrest := ih r (attempt + 1) v hr
      (fun i hi => by
        have := hfail (i + 1) (Nat.succ_lt_succ hi)
        simpa [Nat.add_assoc, Nat.add_comm 1 i] using this)
      (by simpa [Nat.add_assoc, Nat.add_comm 1 k] using hsucc)
    have htrace : Effect.sleep (delay * 2 ^ attempt) ::
        (List.range k).map (fun i => Effect.sleep (delay * 2 ^ (attempt + 1 + i))) =
        (List.range (k + 1)).map (fun i => Effect.sleep (delay * 2 ^ (attempt + i))) := by
      rw [List.range_succ_eq_map, List.map_cons, List.map_map, Nat.add_zero]
      congr 1
      apply List.map_congr_left
      intro i _
      simp only [Function.comp_apply]
      have hidx : attempt + 1 + i = attempt + (i + 1) := by omega
      rw [hidx]
    have h0 := hfail 0 (Nat.zero_lt_succ k)
    simp only [Nat.add_zero] at h0
    rcases h0 with h0 | ⟨s, h0⟩
    · simp [retryLoop, h0, hr0, hrest, htrace]
    · by_cases hs : s = 403
      · simp [retryLoop, h0, hs, hrest, htrace]
      · simp [retryLoop, h0, hs, hr0, hrest, htrace]

lemma retryLoop_all_fail (op : Nat → CallOutcome α) (delay : Nat)
    (hfail : ∀ i, isTransientFailure (op i)) :
    ∀ remaining attempt,
      (retryLoop op delay remaining attempt).calls = remaining ∧
      ∃ e, (retryLoop op delay remaining attempt).result = .raised e := by
  intro remaining
  induction remaining with
  | zero => intro attempt; exact ⟨rfl, ⟨Exc.allRetriesFailed, rfl⟩⟩
  | succ r ih =>
    intro attempt
    obtain ⟨hcalls, e, hres⟩ := ih (attempt + 1)
    rcases hfail attempt with h0 | ⟨s, h0⟩
    · by_cases hr0 : r = 0
      · subst hr0; exact ⟨by simp [retryLoop, h0], .generic, by simp [retryLoop, h0]⟩
      · exact ⟨by simp [retryLoop, h0, hr0, hcalls], e, by simp [retryLoop, h0, hr0, hres]⟩
    · by_cases hs : s = 403
      · exact ⟨by simp [retryLoop, h0, hs, hcalls], e, by simp [retryLoop, h0, hs, hres]⟩
      · by_cases hr0 : r = 0
        · subst hr0
          exact ⟨by simp [retryLoop, h0, hs], .github s, by simp [retryLoop, h0, hs]⟩
        · exact ⟨by simp [retryLoop, h0, hs, hr0, hcalls], e,
            by simp [retryLoop, h0, hs, hr0, hres]⟩

lemma retryLoop_quota_prefix (op : Nat → CallOutcome α) (delay : Nat) (v : α) :
    ∀ (j remaining attempt : Nat),
      (∀ i, i < j → op (attempt + i) = .rateLimitExceeded) →
      op (attempt + j) = .success v →
      retryLoop op delay remaining attempt =
        ⟨if j < remaining then .ok v else .raised .allRetriesFailed,
          List.replicate (min j remaining) .checkRateLimit,
          min (j + 1) remaining⟩ := by
  intro j
  induction j with
  | zero =>
    intro remaining attempt _ hsucc
    simp only [Nat.add_zero] at hsucc
    match remaining with
    | 0 => simp [retryLoop]
    | r + 1 => simp [retryLoop, hsucc, Nat.succ_min_succ]
  | succ j ih =>
    intro remaining attempt hq hsucc
    match remaining with
    | 0 => simp [retryLoop]
    | r + 1 =>
      have h0 := hq 0 (Nat.zero_lt_succ j)
      simp only [Nat.add_zero] at h0
      have hrest := ih r (attempt + 1)
        (fun i hi => by
          have := hq (i + 1) (Nat.succ_lt_succ hi)
          simpa [Nat.add_assoc, Nat.add_comm 1 i] using this)
        (by simpa [Nat.add_assoc, Nat.add_comm 1 j] using hsucc)
      simp [retryLoop, h0, hrest, Nat.succ_min_succ, Nat.succ_lt_succ_iff,
        List.replicate_succ]

/-- C2: a wrapped operation that fails with non-quota transient failures on
its first `k` invocations and succeeds on invocation `k`, with `k` below the
attempt bound, makes `_retry_on_failure` return the success value after
exactly `k` sleeps with delays `D·2^0, D·2^1, …, D·2^(k-1)`, having invoked
the operation `k + 1` times. -/
theorem retry_transient_failures_backoff (op : Nat → CallOutcome α)
    (delay attempts k : Nat) (v : α) (hk : k < attempts)
    (hfail : ∀ i, i < k → isTransientFailure (op i))
    (hsucc : op k = .success v) :
    retry_on_failure op delay attempts =
      ⟨.ok v, (List.range k).map (fun i => .sleep (delay * 2 ^ i)), k + 1⟩ := by
  have := retryLoop_transient_then_success op delay k attempts 0 v hk
    (fun i hi => by simpa using hfail i hi) (by simpa using hsucc)
  simpa [retry_on_failure] using this

/-- Witness for C2 at the defaults `N = RETRY_ATTEMPTS = 3`,
`D = RETRY_DELAY = 2`: an operation failing twice then succeeding returns
the value after sleeps of 2 and 4 seconds, over 3 invocations. -/
theorem retry_transient_failures_backoff_witness :
    retry_on_failure
        (fun i => if i < 2 then CallOutcome.otherExc else .success 42)
        RETRY_DELAY RETRY_ATTEMPTS =
      ⟨.ok 42, [.sleep 2, .sleep 4], 3⟩ := by
  have := retry_transient_failures_backoff
    (fun i => if i < 2 then CallOutcome.otherExc else .success 42)
    RETRY_DELAY RETRY_ATTEMPTS 2 42 (by decide)
    (fun i hi => Or.inl (by simp [hi]))
    (by decide)
  simpa [RETRY_DELAY, List.range_succ] using this

/-- C3: a wrapped operation that fails with a non-quota-exceeded failure on
every invocation is invoked exactly `attempts` times by
`_retry_on_failure`, which then raises (either re-raising the last failure
or raising the retry-exhausted exception). -/
theorem retry_always_fails_exhausts (op : Nat → CallOutcome α)
    (delay attempts : Nat) (hfail : ∀ i, isTransientFailure (op i)) :
    (retry_on_failure op delay attempts).calls = attempts ∧
    ∃ e, (retry_on_failure op delay attempts).result = .raised e :=
  retryLoop_all_fail op delay hfail attempts 0

/-- Witness for C3 at the defaults: an operation always raising a generic
exception is invoked exactly 3 times and the result is a raised
exception. -/
theorem retry_always_fails_exhausts_witness :
    (retry_on_failure (fun _ => (CallOutcome.otherExc : CallOutcome Nat))
        RETRY_DELAY RETRY_ATTEMPTS).calls = RETRY_ATTEMPTS ∧
    ∃ e, (retry_on_failure (fun _ => (CallOutcome.otherExc : CallOutcome Nat))
        RETRY_DELAY RETRY_ATTEMPTS).result = .raised e :=
  retry_always_fails_exhausts _ RETRY_DELAY RETRY_ATTEMPTS
    (fun _ => Or.inl rfl)

/-- An operation that raises `RateLimitExceededException` on its first
three invocations and would succeed on the fourth. -/
def opQuotaThenSuccess : Nat → CallOutcome Nat :=
  fun i => if i < 3 then .rateLimitExceeded else .success 42

/-- Counterexample to C1 as stated: with the default `RETRY_ATTEMPTS = 3`,
an operation raising quota-exceeded `j = 3` times and then succeeding does
NOT still have all attempts available — the loop variable advances on the
quota branch too, so the executor exhausts the loop and raises
`Exception("All retry attempts failed")` instead of returning the success
value. -/
theorem retry_quota_counterexample :
    (retry_on_failure opQuotaThenSuccess RETRY_DELAY RETRY_ATTEMPTS).result =
      .raised .allRetriesFailed ∧
    (retry_on_failure opQuotaThenSuccess RETRY_DELAY RETRY_ATTEMPTS).result ≠
      .ok 42 := by
  decide

/-- C1 (amended): on a quota-exceeded signal the executor delegates to the
rate limiter (`_check_rate_limit`) and retries without sleeping a backoff
delay, but the retry DOES consume one of the `attempts` loop iterations: an
operation raising quota-exceeded on its first `j` invocations and then
succeeding returns the success value iff `j < attempts` (otherwise the
executor raises the retry-exhausted exception), its trace is only
rate-limit checks (no sleeps), and the operation is invoked
`min (j+1) attempts` times. -/
theorem retry_quota_consumes_attempt (op : Nat → CallOutcome α)
    (delay attempts j : Nat) (v : α)
    (hq : ∀ i, i < j → op i = .rateLimitExceeded)
    (hsucc : op j = .success v) :
    retry_on_failure op delay attempts =
      ⟨if j < attempts then .ok v else .raised .allRetriesFailed,
        List.replicate (min j attempts) .checkRateLimit,
        min (j + 1) attempts⟩ := by
  have := retryLoop_quota_prefix op delay v j attempts 0
    (fun i hi => by simpa using hq i hi) (by simpa using hsucc)
  simpa [retry_on_failure] using this

/-- Witness for the amended C1: quota-exceeded twice then success, under
the default 3 attempts, returns the value after two rate-limit checks and
three invocations, with no sleep in the trace. -/
theorem retry_quota_consumes_attempt_witness :
    retry_on_failure
        (fun i => if i < 2 then CallOutcome.rateLimitExceeded else .success 7)
        RETRY_DELAY RETRY_ATTEMPTS =
      ⟨.ok 7, [.checkRateLimit, .checkRateLimit], 3⟩ := by
  have := retry_quota_consumes_attempt
    (fun i => if i < 2 then CallOutcome.rateLimitExceeded else .success 7)
    RETRY_DELAY RETRY_ATTEMPTS 2 7
    (fun i hi => by simp [hi]) (by decide)
  simpa [RETRY_ATTEMPTS] using this

/-! ## Cache validity (`utils.is_cache_valid`, `utils.load_json`)

A JSON file on disk is modelled by its observable state: missing,
present-but-unparseable (on which `json.load` raises
`json.JSONDecodeError`), or parsed to a value. -/

/-- State of a JSON file at a path. -/
inductive JsonFile (α : Type) where
  | missing
  | unparseable
  | parsed (value : α)
deriving DecidableEq, Repr

/-- `utils.load_json` (utils.py lines 44-58): `None` when the file does not
exist, the parsed value otherwise; `json.load` raises on an unparseable
file and `load_json` does not catch that. -/
def load_json : JsonFile α → Except Unit (Option α)
  | .missing => .ok none
  | .unparseable => .error ()
  | .parsed v => .ok (some v)

/-- The parsed cache metadata object, as `is_cache_valid` observes it:
whether the parsed value is truthy (`if not metadata` fails on `None`, `{}`
and other falsy values), and the value of its `"timestamp"` key when
present — modelled as the parsed instant in seconds. -/
structure MetadataJson where
  truthy : Bool
  timestamp : Option Int
deriving DecidableEq, Repr

/-- Seconds per day, the unit conversion inside
`timedelta(days=max_age_days)`. -/
def SECONDS_PER_DAY : Int := 86400

/-- `utils.is_cache_valid` (utils.py lines 61-82): `False` when the
metadata file is missing, when the parsed metadata is falsy, or when it has
no `"timestamp"` key; otherwise the strict comparison
`datetime.now() - cache_time < timedelta(days=max_age_days)`.  A file that
exists but fails to parse makes the uncaught `json.load` exception
propagate. -/
def is_cache_valid (metaFile : JsonFile MetadataJson) (now max_age_days : Int) :
    Except Unit Bool :=
  match metaFile with
  | .missing => .ok false
  | .unparseable => .error ()
  | .parsed m =>
    if !m.truthy then .ok false
    else
      match m.timestamp with
      | none => .ok false
      | some t => .ok (decide (now - t < max_age_days * SECONDS_PER_DAY))

/-- Counterexample to C4 as stated: an unparseable metadata file does not
make the validity check return invalid — the parse exception propagates
out of `is_cache_valid` instead. -/
theorem is_cache_valid_unparseable_counterexample :
    is_cache_valid .unparseable 0 7 = .error () ∧
    is_cache_valid .unparseable 0 7 ≠ .ok false := by
  decide

/-- C4 (amended): the cache validity check returns true iff the metadata
file parses to a truthy object containing a timestamp `t` with
`now - t < max_age_days` strictly; a missing file, a falsy parsed value, or
an absent timestamp key yield invalid, and an age of exactly
`max_age_days` is invalid; but an unparseable metadata file makes the
check raise the parse error rather than return invalid. -/
theorem is_cache_valid_characterization (metaFile : JsonFile MetadataJson)
    (now d : Int) :
    (is_cache_valid metaFile now d = .ok true ↔
      ∃ m, metaFile = .parsed m ∧ m.truthy = true ∧
        ∃ t, m.timestamp = some t ∧ now - t < d * SECONDS_PER_DAY) ∧
    (is_cache_valid metaFile now d = .error () ↔ metaFile = .unparseable) ∧
    (∀ m t, metaFile = .parsed m → m.timestamp = some t →
      now - t = d * SECONDS_PER_DAY → is_cache_valid metaFile now d = .ok false) := by
  refine ⟨?_, ?_, ?_⟩
  · cases metaFile with
    | missing => simp [is_cache_valid]
    | unparseable => simp [is_cache_valid]
    | parsed m =>
      cases m with
      | mk truthy timestamp =>
        cases truthy with
        | false => simp [is_cache_valid]
        | true =>
          cases timestamp with
          | none => simp [is_cache_valid]
          | some t => simp [is_cache_valid]
  · cases metaFile with
    | missing => simp [is_cache_valid]
    | unparseable => simp [is_cache_valid]
    | parsed m =>
      cases m with
      | mk truthy timestamp =>
        cases truthy with
        | false => simp [is_cache_valid]
        | true =>
          cases timestamp with
          | none => simp [is_cache_valid]
          | some t => simp [is_cache_valid]
  · rintro m t rfl ht hage
    cases m with
    | mk truthy timestamp =>
      cases ht
      cases truthy with
      | false => simp [is_cache_valid]
      | true => simp [is_cache_valid, hage]

/-- Witness for C4 (amended) at a concrete boundary input: metadata stamped
at instant 0 checked at exactly 7 days of age with `max_age_days = 7` is
invalid. -/
theorem is_cache_valid_characterization_witness :
    is_cache_valid (.parsed ⟨true, some 0⟩) (7 * 86400) 7 = .ok false :=
  (is_cache_valid_characterization (.parsed ⟨true, some 0⟩) (7 * 86400) 7).2.2
    ⟨true, some 0⟩ 0 rfl rfl (by decide)

/-! ## Extension-to-language mapping (`utils.map_extension_to_language`)

The Python dict literal is modelled as an association list with the same
key order; `None` values (binary and media files excluded from language
stats) are `Option.none`.  `language_map.get(extension, "Other")` is an
association-list lookup with default `some "Other"`, and the final
`return result if result is not None else None` returns `result`
unchanged. -/

/-- The `language_map` dict (utils.py lines 128-199). -/
def language_map : List (String × Option String) :=
  [("py", some "Python"), ("js", some "JavaScript"), ("ts", some "TypeScript"),
   ("jsx", some "React/JSX"), ("tsx", some "React/TSX"), ("java", some "Java"),
   ("cpp", some "C++"), ("cc", some "C++"), ("cxx", some "C++"),
   ("h", some "C/C++ Header"), ("hpp", some "C++ Header"), ("c", some "C"),
   ("cs", some "C#"), ("go", some "Go"), ("rs", some "Rust"),
   ("php", some "PHP"), ("rb", some "Ruby"), ("swift", some "Swift"),
   ("kt", some "Kotlin"), ("scala", some "Scala"), ("r", some "R"),
   ("m", some "MATLAB"), ("sql", some "SQL"), ("html", some "HTML"),
   ("css", some "CSS"), ("scss", some "SCSS"), ("sass", some "Sass"),
   ("vue", some "Vue"), ("md", some "Markdown"), ("json", some "Config/JSON"),
   ("xml", some "Config/XML"), ("yaml", some "Config/YAML"),
   ("yml", some "Config/YAML"), ("toml", some "Config/TOML"),
   ("ini", some "Config/INI"), ("sh", some "Shell"), ("bash", some "Bash"),
   ("ps1", some "PowerShell"), ("ipynb", some "Jupyter"), ("txt", some "Text"),
   ("lock", some "Lock File"), ("gitignore", some "Git"),
   ("dockerignore", some "Docker"), ("env", some "Environment"),
   ("exe", none), ("dll", none), ("so", none), ("dylib", none),
   ("pyc", none), ("pyo", none), ("pyd", none), ("class", none),
   ("o", none), ("a", none),
   ("png", none), ("jpg", none), ("jpeg", none), ("gif", none),
   ("svg", none), ("ico", none), ("mp4", none), ("mp3", none),
   ("wav", none), ("pdf", none), ("zip", none), ("tar", none), ("gz", none),
   ("no_extension", some "Other")]

/-- `utils.map_extension_to_language` (utils.py lines 118-203). -/
def map_extension_to_language (extension : String) : Option String :=
  match language_map.lookup extension with
  | some result => result
  | none => some "Other"

/-- The keys of `language_map` carrying `None`: the binary/compiled and
media extensions excluded from language stats. -/
def binary_media_extensions : List String :=
  ["exe", "dll", "so", "dylib", "pyc", "pyo", "pyd", "class", "o", "a",
   "png", "jpg", "jpeg", "gif", "svg", "ico", "mp4", "mp3", "wav", "pdf",
   "zip", "tar", "gz"]

lemma lookup_mem {l : List (String × Option String)} {e : String}
    {v : Option String} (h : l.lookup e = some v) : (e, v) ∈ l := by
  induction l with
  | nil => simp [List.lookup] at h
  | cons p rest ih =>
    obtain ⟨k, w⟩ := p
    by_cases he : e = k
    · subst he
      simp [List.lookup] at h
      subst h
      exact List.mem_cons_self _ _
    · have hbeq : (e == k) = false := by simp [he]
      rw [List.lookup] at h
      simp only [hbeq] at h
      exact List.mem_cons_of_mem _ (ih h)

lemma lookup_eq_none {l : List (String × Option String)} {e : String}
    (h : ∀ p ∈ l, p.1 ≠ e) : l.lookup e = none := by
  induction l with
  | nil => rfl
  | cons p rest ih =>
    obtain ⟨k, w⟩ := p
    have hne : e ≠ k := fun hc => h (k, w) (List.mem_cons_self _ _) hc.symm
    have hbeq : (e == k) = false := by simp [hne]
    rw [List.lookup]
    simp only [hbeq]
    exact ih (fun q hq => h q (List.mem_cons_of_mem _ hq))

/-- C7: the extension-to-language mapping is a pure total Lean function
(hence deterministic); every extension in the known binary/media set maps
to the exclusion value `none`; every extension that is not a key of the
map — neither a known language nor a known binary/media extension — maps
to the generic fallback `"Other"`, never to the exclusion value; and
conversely only binary/media extensions map to the exclusion value. -/
theorem map_extension_to_language_spec :
    (∀ e ∈ binary_media_extensions, map_extension_to_language e = none) ∧
    (∀ e : String, (∀ p ∈ language_map, p.1 ≠ e) →
      map_extension_to_language e = some "Other") ∧
    (∀ e : String, map_extension_to_language e = none →
      e ∈ binary_media_extensions) := by
  refine ⟨by decide, ?_, ?_⟩
  · intro e he
    rw [map_extension_to_language, lookup_eq_none he]
  · intro e he
    rw [map_extension_to_language] at he
    cases hl : language_map.lookup e with
    | none => rw [hl] at he; cases he
    | some r =>
      rw [hl] at he
      cases he
      have hmem : (e, (none : Option String)) ∈ language_map := lookup_mem hl
      have : ∀ p ∈ language_map, p.2 = none → p.1 ∈ binary_media_extensions := by
        decide
      exact this (e, none) hmem rfl

/-- Witness for C7 at concrete extensions: the unknown extension `"zig"`
maps to the fallback `"Other"` (the hypothesis that `"zig"` is not a key of
the map is discharged by evaluation). -/
theorem map_extension_to_language_spec_witness :
    map_extension_to_language "zig" = some "Other" :=
  map_extension_to_language_spec.2.1 "zig" (by decide)

/-! ## Data model and normalizer (`GitHubDataFetcher._process_dataframe`)

A commit timestamp is the parsed `commit.commit.author.date` instant
(calendar fields; `pd.to_datetime` is the identity on already-parsed
instants, so conversion is absorbed into the field).  A DataFrame is its
column-name list (the schema pandas tracks even for zero rows) together
with its rows; every derived cell is a function of the row's raw fields —
pandas recomputes and overwrites the derived columns on each
`_process_dataframe` call — so rows store only the raw fields and the
derived-value functions below give the cells. -/

/-- A calendar timestamp (timezone already normalized). -/
structure Timestamp where
  year : Int
  month : Nat
  day : Nat
  hour : Nat
  minute : Nat
  second : Nat
deriving DecidableEq, Repr

/-- Chronological sort key of a timestamp: a lexicographic packing of the
calendar fields, order-isomorphic to chronological order for in-range
fields (month 1-12, day 1-31, hour 0-23, minute/second 0-59). -/
def Timestamp.key (t : Timestamp) : Int :=
  ((((t.year * 13 + t.month) * 32 + t.day) * 24 + t.hour) * 60 +
      t.minute) * 60 + t.second

/-- One entry of `files_changed` (data_fetcher.py lines 174-180). -/
structure FileChange where
  filename : String
  extension : String
  additions : Nat
  deletions : Nat
  changes : Nat
deriving DecidableEq, Repr

/-- One raw commit record as built by `fetch_commits_from_repo`
(data_fetcher.py lines 160-168). -/
structure RawRecord where
  sha : String
  message : String
  timestamp : Timestamp
  repo_name : String
  repo_full_name : String
  author : String
  files_changed : List FileChange
deriving DecidableEq, Repr

/-- A pandas DataFrame over commit records: schema plus rows. -/
structure DataFrame where
  cols : List String
  rows : List RawRecord
deriving DecidableEq, Repr

/-- The raw columns of `pd.DataFrame(all_commits)` for a non-empty record
list: the dict keys of a commit record. -/
def raw_cols : List String :=
  ["sha", "message", "timestamp", "repo_name", "repo_full_name", "author",
   "files_changed"]

/-- `pd.DataFrame(records)`: dict keys become columns; the empty list gives
a frame with no columns at all. -/
def mkFrame (records : List RawRecord) : DataFrame :=
  { cols := if records.isEmpty then [] else raw_cols, rows := records }

/-- The derived columns `_process_dataframe` adds (data_fetcher.py lines
268-280), in assignment order. -/
def derived_columns : List String :=
  ["hour", "day_of_week", "day_of_week_num", "date", "month", "year",
   "message_length", "message_word_count", "files_count"]

/-- `df[c] = ...` on the schema: a no-op if the column exists, else append. -/
def addCol (cols : List String) (c : String) : List String :=
  if c ∈ cols then cols else cols ++ [c]

/-- Row order used by `df.sort_values("timestamp")`. -/
def recordLe (a b : RawRecord) : Prop := a.timestamp.key ≤ b.timestamp.key

/-- Strict version of `recordLe`, used to reason about rows with pairwise
distinct timestamps. -/
def recordLt (a b : RawRecord) : Prop := a.timestamp.key < b.timestamp.key

instance : DecidableRel recordLe :=
  fun a b => (inferInstance : Decidable (a.timestamp.key ≤ b.timestamp.key))

instance : DecidableRel recordLt :=
  fun a b => (inferInstance : Decidable (a.timestamp.key < b.timestamp.key))

instance : IsTotal RawRecord recordLe :=
  ⟨fun a b => Int.le_total a.timestamp.key b.timestamp.key⟩

instance : IsTrans RawRecord recordLe := ⟨fun _ _ _ h1 h2 => Int.le_trans h1 h2⟩

instance : IsAntisymm RawRecord recordLt :=
  ⟨fun _ _ h1 h2 => absurd h2 (Int.not_lt.mpr (Int.le_of_lt h1))⟩

/-- The contract `df.sort_values("timestamp")` satisfies: the result is
some permutation of the rows that is sorted ascending by the timestamp
key.  pandas' default `kind='quicksort'` is documented as NOT stable, so
the order in which rows with equal timestamps come out is implementation
behavior the source does not fix; the sort is therefore kept abstract, and
any function satisfying this contract is an admissible behavior. -/
def isTimestampSort (sortRows : List RawRecord → List RawRecord) : Prop :=
  ∀ l, (sortRows l).Perm l ∧ (sortRows l).Sorted recordLe

/-- `_process_dataframe` (data_fetcher.py lines 251-286), with the row sort
abstracted over the behaviors `sort_values` may exhibit: an empty frame is
returned unchanged (`if df.empty: return df`, before any column is added);
otherwise the derived columns are assigned in order and the rows are sorted
ascending by timestamp (`reset_index(drop=True)` drops the old row
labels). -/
def process_dataframe_with (sortRows : List RawRecord → List RawRecord)
    (df : DataFrame) : DataFrame :=
  if df.rows.isEmpty then df
  else
    { cols := derived_columns.foldl addCol df.cols,
      rows := sortRows df.rows }

/-- `_process_dataframe` at one concrete admissible sort behavior (the
stable `List.insertionSort`) — the executable instance used by the
orchestrator model and by concrete evaluations.  Properties that depend on
how tied rows are ordered hold of this instance but are not guaranteed by
the source's unstable quicksort; tie-independent properties are proved of
`process_dataframe_with` for every admissible sort. -/
def process_dataframe (df : DataFrame) : DataFrame :=
  if df.rows.isEmpty then df
  else
    { cols := derived_columns.foldl addCol df.cols,
      rows := List.insertionSort recordLe df.rows }

/-- Derived cell: `df["hour"]` is `timestamp.dt.hour`. -/
def RawRecord.hour (r : RawRecord) : Nat := r.timestamp.hour

/-- Derived cell: `df["year"]` is `timestamp.dt.year`. -/
def RawRecord.year (r : RawRecord) : Int := r.timestamp.year

/-- Derived cell: `df["message_length"]` is `message.str.len()`. -/
def RawRecord.message_length (r : RawRecord) : Nat := r.message.length

/-- Derived cell: `df["files_count"]` is `files_changed.apply(len)`. -/
def RawRecord.files_count (r : RawRecord) : Nat := r.files_changed.length

lemma mem_addCol {cols : List String} {c d : String} (h : c ∈ cols) :
    c ∈ addCol cols d := by
  unfold addCol
  by_cases hd : d ∈ cols
  · simpa [hd] using h
  · simp [hd, List.mem_append, h]

lemma mem_addCol_self (cols : List String) (c : String) : c ∈ addCol cols c := by
  unfold addCol
  by_cases hd : c ∈ cols
  · simp [hd]
  · simp [hd]

lemma foldl_addCol_mem {cs : List String} {cols : List String} {c : String}
    (h : c ∈ cols) : c ∈ cs.foldl addCol cols := by
  induction cs generalizing cols with
  | nil => exact h
  | cons d cs ih =>
    rw [List.foldl_cons]
    exact ih (mem_addCol h)

lemma foldl_addCol_mem_self {cs : List String} {cols : List String} {c : String}
    (h : c ∈ cs) : c ∈ cs.foldl addCol cols := by
  induction cs generalizing cols with
  | nil => cases h
  | cons d cs ih =>
    rw [List.foldl_cons]
    rcases List.mem_cons.mp h with rfl | h
    · exact foldl_addCol_mem (mem_addCol_self cols c)
    · exact ih h

lemma foldl_addCol_of_mem {cs : List String} {cols : List String}
    (h : ∀ c ∈ cs, c ∈ cols) : cs.foldl addCol cols = cols := by
  induction cs with
  | nil => rfl
  | cons d cs ih =>
    have hd : d ∈ cols := h d (List.mem_cons_self _ _)
    rw [List.foldl_cons]
    unfold addCol
    rw [if_pos hd]
    exact ih (fun c hc => h c (List.mem_cons_of_mem _ hc))

lemma sorted_le_of_nodup_keys {l : List RawRecord}
    (hs : l.Sorted recordLe)
    (hn : (l.map (fun r => r.timestamp.key)).Nodup) :
    l.Sorted recordLt := by
  have hpw : l.Pairwise (fun a b => a.timestamp.key ≠ b.timestamp.key) :=
    (List.pairwise_map).mp hn
  have := hs.and hpw
  exact this.imp (fun h => Int.lt_iff_le_and_ne.mpr ⟨h.1, h.2⟩)

lemma dataframe_mk_cols (c : List String) (r : List RawRecord) :
    (DataFrame.mk c r).cols = c := rfl

lemma dataframe_mk_rows (c : List String) (r : List RawRecord) :
    (DataFrame.mk c r).rows = r := rfl

lemma dataframe_eq_of {a b : DataFrame} (hc : a.cols = b.cols)
    (hr : a.rows = b.rows) : a = b := by
  cases a
  cases b
  cases hc
  cases hr
  rfl

lemma process_dataframe_eq_with :
    process_dataframe = process_dataframe_with (List.insertionSort recordLe) :=
  rfl

lemma insertionSort_isTimestampSort :
    isTimestampSort (List.insertionSort recordLe) :=
  fun l => ⟨List.perm_insertionSort recordLe l,
    List.sorted_insertionSort recordLe l⟩

lemma process_dataframe_with_empty_rows
    (sortRows : List RawRecord → List RawRecord) (df : DataFrame)
    (h : df.rows = []) : process_dataframe_with sortRows df = df := by
  have : df.rows.isEmpty := by rw [h]; rfl
  unfold process_dataframe_with
  rw [if_pos this]

lemma process_dataframe_with_of_ne_empty
    (sortRows : List RawRecord → List RawRecord) (df : DataFrame)
    (h : ¬df.rows.isEmpty) :
    process_dataframe_with sortRows df =
      { cols := derived_columns.foldl addCol df.cols,
        rows := sortRows df.rows } := by
  unfold process_dataframe_with
  rw [if_neg h]

/-- Counterexample to C5 as stated: the empty frame produced by
`pd.DataFrame([])` is returned unchanged by the normalizer, so the empty
output does NOT carry the documented derived columns — `"hour"` is not
among its columns. -/
theorem process_dataframe_empty_counterexample :
    process_dataframe (mkFrame []) = mkFrame [] ∧
    "hour" ∉ (process_dataframe (mkFrame [])).cols := by
  decide

/-- C5 (amended): on the empty raw record collection the normalizer
returns its (empty) input dataset unchanged, without raising — downstream
consumers can branch on emptiness — but the early return skips the
column assignments, so the empty result does not carry the documented
derived columns. -/
theorem process_dataframe_empty (df : DataFrame) (h : df.rows = []) :
    process_dataframe df = df ∧ (process_dataframe df).rows = [] := by
  have : df.rows.isEmpty := by rw [h]; rfl
  constructor
  · unfold process_dataframe
    rw [if_pos this]
  · unfold process_dataframe
    rw [if_pos this, h]

/-- Witness for C5 (amended) at the concrete empty frame. -/
theorem process_dataframe_empty_witness :
    process_dataframe (mkFrame []) = mkFrame [] ∧
    (process_dataframe (mkFrame [])).rows = [] :=
  process_dataframe_empty (mkFrame []) rfl

/-- A concrete timestamp shared by two distinct records. -/
def tsShared : Timestamp := ⟨2024, 3, 15, 20, 30, 0⟩

/-- First record with the shared timestamp. -/
def recTieA : RawRecord :=
  ⟨"aaa111", "first commit", tsShared, "repo", "user/repo", "dev", []⟩

/-- Second record with the shared timestamp. -/
def recTieB : RawRecord :=
  ⟨"bbb222", "second commit", tsShared, "repo", "user/repo", "dev", []⟩

/-- Counterexample to C6 as stated: two raw records sharing a timestamp.
The two input orders are permutations of each other, yet the normalizer
returns different outputs — tied rows keep their input order, so the
normalizer is not input-order-independent. -/
theorem process_dataframe_perm_counterexample :
    (List.Perm [recTieB, recTieA] [recTieA, recTieB]) ∧
    process_dataframe ⟨raw_cols, [recTieB, recTieA]⟩ ≠
      process_dataframe ⟨raw_cols, [recTieA, recTieB]⟩ := by
  constructor
  · exact List.Perm.swap _ _ _
  · decide

lemma process_dataframe_with_rows_sorted
    (sortRows : List RawRecord → List RawRecord)
    (hf : isTimestampSort sortRows) (df : DataFrame) :
    (process_dataframe_with sortRows df).rows.Sorted recordLe := by
  by_cases h : df.rows.isEmpty
  · rw [List.isEmpty_iff] at h
    rw [process_dataframe_with_empty_rows sortRows df h, h]
    exact List.sorted_nil
  · rw [process_dataframe_with_of_ne_empty sortRows df h, dataframe_mk_rows]
    exact (hf df.rows).2

lemma process_dataframe_with_perm_indep
    (sortRows1 sortRows2 : List RawRecord → List RawRecord)
    (hf1 : isTimestampSort sortRows1) (hf2 : isTimestampSort sortRows2)
    (df1 df2 : DataFrame)
    (hcols : df1.cols = df2.cols) (hperm : df1.rows.Perm df2.rows)
    (hnodup : (df1.rows.map (fun r => r.timestamp.key)).Nodup) :
    process_dataframe_with sortRows1 df1 = process_dataframe_with sortRows2 df2 := by
  by_cases h1 : df1.rows.isEmpty
  · rw [List.isEmpty_iff] at h1
    have h2 : df2.rows = [] := by
      have := hperm
      rw [h1] at this
      exact (List.Perm.nil_eq this).symm
    rw [process_dataframe_with_empty_rows sortRows1 df1 h1,
      process_dataframe_with_empty_rows sortRows2 df2 h2]
    cases df1; cases df2
    simp only at hcols h1 h2
    rw [hcols, h1, h2]
  · have h2 : ¬df2.rows.isEmpty := by
      rw [List.isEmpty_iff] at h1 ⊢
      intro hc
      rw [hc] at hperm
      exact h1 (List.Perm.eq_nil hperm)
    rw [process_dataframe_with_of_ne_empty sortRows1 df1 h1,
      process_dataframe_with_of_ne_empty sortRows2 df2 h2, hcols]
    have hsort1 := (hf1 df1.rows).2
    have hsort2 := (hf2 df2.rows).2
    have hp : (sortRows1 df1.rows).Perm (sortRows2 df2.rows) :=
      ((hf1 df1.rows).1.trans hperm).trans (hf2 df2.rows).1.symm
    have hn1 : ((sortRows1 df1.rows).map (fun r => r.timestamp.key)).Nodup :=
      ((hf1 df1.rows).1.map _).nodup_iff.mpr hnodup
    have hn2 : ((sortRows2 df2.rows).map (fun r => r.timestamp.key)).Nodup :=
      (hp.map _).nodup_iff.mp hn1
    have hlt1 := sorted_le_of_nodup_keys hsort1 hn1
    have hlt2 := sorted_le_of_nodup_keys hsort2 hn2
    rw [List.eq_of_perm_of_sorted hp hlt1 hlt2]

lemma process_dataframe_with_idem
    (sortRows : List RawRecord → List RawRecord)
    (hf : isTimestampSort sortRows) (df : DataFrame)
    (hnodup : (df.rows.map (fun r => r.timestamp.key)).Nodup) :
    process_dataframe_with sortRows (process_dataframe_with sortRows df) =
      process_dataframe_with sortRows df := by
  by_cases h : df.rows.isEmpty
  · rw [List.isEmpty_iff] at h
    rw [process_dataframe_with_empty_rows sortRows df h,
      process_dataframe_with_empty_rows sortRows df h]
  · have hne : ¬df.rows.isEmpty := h
    have hne2 : ¬(process_dataframe_with sortRows df).rows.isEmpty := by
      rw [process_dataframe_with_of_ne_empty sortRows df hne, dataframe_mk_rows,
        List.isEmpty_iff]
      intro hc
      have hlen := (hf df.rows).1.length_eq
      rw [hc] at hlen
      rw [List.isEmpty_iff] at hne
      exact hne (List.eq_nil_of_length_eq_zero (by simpa using hlen.symm))
    have hcols2 :
        (process_dataframe_with sortRows (process_dataframe_with sortRows df)).cols =
          (process_dataframe_with sortRows df).cols := by
      rw [process_dataframe_with_of_ne_empty sortRows _ hne2, dataframe_mk_cols]
      apply foldl_addCol_of_mem
      intro c hc
      rw [process_dataframe_with_of_ne_empty sortRows df hne, dataframe_mk_cols]
      exact foldl_addCol_mem_self hc
    have hrows2 :
        (process_dataframe_with sortRows (process_dataframe_with sortRows df)).rows =
          (process_dataframe_with sortRows df).rows := by
      rw [process_dataframe_with_of_ne_empty sortRows _ hne2, dataframe_mk_rows,
        process_dataframe_with_of_ne_empty sortRows df hne, dataframe_mk_rows]
      have hs1 := (hf (sortRows df.rows)).2
      have hs0 := (hf df.rows).2
      have hp : (sortRows (sortRows df.rows)).Perm (sortRows df.rows) :=
        (hf (sortRows df.rows)).1
      have hn0 : ((sortRows df.rows).map (fun r => r.timestamp.key)).Nodup :=
        ((hf df.rows).1.map _).nodup_iff.mpr hnodup
      have hn1 : ((sortRows (sortRows df.rows)).map
          (fun r => r.timestamp.key)).Nodup :=
        (hp.map _).nodup_iff.mpr hn0
      exact List.eq_of_perm_of_sorted hp
        (sorted_le_of_nodup_keys hs1 hn1) (sorted_le_of_nodup_keys hs0 hn0)
    exact dataframe_eq_of hcols2 hrows2

/-- C6 (amended): for every admissible behavior of the source's
`sort_values("timestamp")` — any function turning the rows into a sorted
permutation, pandas' unstable default quicksort included — the
normalizer's output is sorted ascending by timestamp; on record
collections whose timestamps are pairwise distinct, any permutation of the
same records under the same schema yields an identical output (even across
two different admissible sort behaviors), and the normalizer is
idempotent.  With duplicate timestamps, input-order independence fails
(see the counterexample) and the source does not fix the order of tied
rows, so no tie order or tie-stability is asserted.  `process_dataframe`
is the abstract normalizer at one admissible behavior,
`List.insertionSort`. -/
theorem process_dataframe_sorted_perm_idempotent :
    (∀ sortRows, isTimestampSort sortRows → ∀ df : DataFrame,
      (process_dataframe_with sortRows df).rows.Sorted recordLe) ∧
    (∀ sortRows1 sortRows2, isTimestampSort sortRows1 →
      isTimestampSort sortRows2 →
      ∀ df1 df2 : DataFrame, df1.cols = df2.cols → df1.rows.Perm df2.rows →
        (df1.rows.map (fun r => r.timestamp.key)).Nodup →
        process_dataframe_with sortRows1 df1 =
          process_dataframe_with sortRows2 df2) ∧
    (∀ sortRows, isTimestampSort sortRows → ∀ df : DataFrame,
      (df.rows.map (fun r => r.timestamp.key)).Nodup →
      process_dataframe_with sortRows (process_dataframe_with sortRows df) =
        process_dataframe_with sortRows df) ∧
    process_dataframe = process_dataframe_with (List.insertionSort recordLe) ∧
    isTimestampSort (List.insertionSort recordLe) :=
  ⟨process_dataframe_with_rows_sorted, process_dataframe_with_perm_indep,
    process_dataframe_with_idem, process_dataframe_eq_with,
    insertionSort_isTimestampSort⟩

/-- Witness for C6 (amended): two concrete frames holding the same two
records (distinct timestamps) in opposite orders normalize to the same
output, by the permutation-independence conjunct instantiated at the
concrete admissible sort. -/
theorem process_dataframe_sorted_perm_idempotent_witness :
    process_dataframe
        ⟨raw_cols,
          [⟨"bbb222", "second commit", ⟨2024, 3, 16, 9, 0, 0⟩, "repo",
            "user/repo", "dev", []⟩,
           ⟨"aaa111", "first commit", tsShared, "repo", "user/repo", "dev",
            []⟩]⟩ =
      process_dataframe
        ⟨raw_cols,
          [⟨"aaa111", "first commit", tsShared, "repo", "user/repo", "dev",
            []⟩,
           ⟨"bbb222", "second commit", ⟨2024, 3, 16, 9, 0, 0⟩, "repo",
            "user/repo", "dev", []⟩]⟩ :=
  process_dataframe_sorted_perm_idempotent.2.1
    (List.insertionSort recordLe) (List.insertionSort recordLe)
    insertionSort_isTimestampSort insertionSort_isTimestampSort
    _ _ rfl (List.Perm.swap _ _ _) (by decide)

/-! ## Repository enumerator (`GitHubDataFetcher.fetch_repositories`)

The probe `list(repo.get_commits(author=self.username)[:1])` either raises
a `GithubException` (access denied) or reports whether at least one
authored commit exists; a repository is an opaque handle carrying its
probe's outcome. -/

/-- Outcome of probing one repository for authored commits. -/
inductive ProbeResult where
  | commits (found : Bool)
  | accessError
deriving DecidableEq, Repr

/-- A repository handle together with what its probe would return. -/
structure Repo where
  name : String
  probe : ProbeResult
deriving DecidableEq, Repr

/-- The filtering loop of `fetch_repositories` (data_fetcher.py lines
124-131): keep a repository when the probe finds a commit, drop it when the
probe finds none, and on a `GithubException` `continue` with the rest. -/
def filterReposWithCommits : List Repo → List Repo
  | [] => []
  | r :: rest =>
    match r.probe with
    | .commits true => r :: filterReposWithCommits rest
    | .commits false => filterReposWithCommits rest
    | .accessError => filterReposWithCommits rest

/-- `fetch_repositories` (data_fetcher.py lines 108-138): truncate the
listed repositories to `settings.max_repositories`
(`list(user.get_repos())[:settings.max_repositories]`), then filter by the
probe. -/
def fetch_repositories (all_repos : List Repo) (max_repositories : Nat) :
    List Repo :=
  filterReposWithCommits (all_repos.take max_repositories)

lemma mem_filterReposWithCommits {l : List Repo} {r : Repo} :
    r ∈ filterReposWithCommits l ↔ r ∈ l ∧ r.probe = .commits true := by
  induction l with
  | nil => simp [filterReposWithCommits]
  | cons q rest ih =>
    cases hq : q.probe with
    | commits found =>
      cases found with
      | true =>
        simp only [filterReposWithCommits, hq, List.mem_cons]
        constructor
        · rintro (rfl | hr)
          · exact ⟨Or.inl rfl, hq⟩
          · exact ⟨Or.inr (ih.mp hr).1, (ih.mp hr).2⟩
        · rintro ⟨rfl | hr, hp⟩
          · exact Or.inl rfl
          · exact Or.inr (ih.mpr ⟨hr, hp⟩)
      | false =>
        simp only [filterReposWithCommits, hq, List.mem_cons, ih]
        constructor
        · rintro ⟨hr, hp⟩; exact ⟨Or.inr hr, hp⟩
        · rintro ⟨rfl | hr, hp⟩
          · rw [hq] at hp; cases hp
          · exact ⟨hr, hp⟩
    | accessError =>
      simp only [filterReposWithCommits, hq, List.mem_cons, ih]
      constructor
      · rintro ⟨hr, hp⟩; exact ⟨Or.inr hr, hp⟩
      · rintro ⟨rfl | hr, hp⟩
        · rw [hq] at hp; cases hp
        · exact ⟨hr, hp⟩

lemma filterReposWithCommits_length (l : List Repo) :
    (filterReposWithCommits l).length ≤ l.length := by
  induction l with
  | nil => exact Nat.le_refl _
  | cons q rest ih =>
    cases hq : q.probe with
    | commits found =>
      cases found with
      | true =>
        simp only [filterReposWithCommits, hq, List.length_cons]
        exact Nat.succ_le_succ ih
      | false =>
        simp only [filterReposWithCommits, hq, List.length_cons]
        exact Nat.le_succ_of_le ih
    | accessError =>
      simp only [filterReposWithCommits, hq, List.length_cons]
      exact Nat.le_succ_of_le ih

/-- C8: the enumerator first truncates the repository list to the
`max_repositories` cap and then includes a repository iff its probe finds
at least one authored commit; a repository whose probe raises an access
error is excluded while the remaining repositories are still evaluated
(dropping it from the probed list leaves the result unchanged); and the
output length never exceeds the cap. -/
theorem fetch_repositories_spec (all_repos : List Repo) (cap : Nat) :
    (∀ r, r ∈ fetch_repositories all_repos cap ↔
      r ∈ all_repos.take cap ∧ r.probe = .commits true) ∧
    (fetch_repositories all_repos cap).length ≤ cap ∧
    (∀ pre post (r : Repo), r.probe = .accessError →
      filterReposWithCommits (pre ++ r :: post) =
        filterReposWithCommits (pre ++ post)) := by
  refine ⟨fun r => mem_filterReposWithCommits, ?_, ?_⟩
  · exact Nat.le_trans (filterReposWithCommits_length _)
      (List.length_take_le _ _)
  · intro pre post r hr
    induction pre with
    | nil =>
      simp only [List.nil_append, filterReposWithCommits, hr]
    | cons q rest ih =>
      cases hq : q.probe with
      | commits found =>
        cases found with
        | true =>
          simp only [List.cons_append, filterReposWithCommits, hq]
          exact congrArg (List.cons q) ih
        | false =>
          simp only [List.cons_append, filterReposWithCommits, hq]
          exact ih
      | accessError =>
        simp only [List.cons_append, filterReposWithCommits, hq]
        exact ih

/-- Witness for C8 at a concrete list: a repository with an access-denied
probe between two accessible ones is skipped and enumeration continues. -/
theorem fetch_repositories_spec_witness :
    filterReposWithCommits
        [⟨"ok1", .commits true⟩, ⟨"denied", .accessError⟩,
         ⟨"ok2", .commits true⟩] =
      filterReposWithCommits [⟨"ok1", .commits true⟩, ⟨"ok2", .commits true⟩] :=
  (fetch_repositories_spec [] 0).2.2 [⟨"ok1", .commits true⟩]
    [⟨"ok2", .commits true⟩] ⟨"denied", .accessError⟩ rfl

/-! ## Fetch orchestrator (`GitHubDataFetcher.fetch_all_commits`)

The environment fixes everything the run observes: the constructor's
`use_cache` argument and `settings.cache_enabled`, the two cache files, the
clock, the repository listing with the cap, and what
`fetch_commits_from_repo` returns per repository (the retry wrapper around
it is modelled separately above).  The run's observable actions are an
event trace: per-repository rate-limit checks and commit fetches, and the
two cache writes `save_json(all_commits, CACHE_FILE)` and
`save_json({...}, CACHE_METADATA_FILE)`, in program order. -/

/-- Observable actions of `fetch_all_commits`, in program order. -/
inductive Event where
  | rateLimitCheck
  | fetchRepoCommits (name : String)
  | writeData
  | writeMeta
deriving DecidableEq, Repr

/-- The inputs a run of `fetch_all_commits` observes. -/
structure FetchEnv where
  use_cache_arg : Bool
  cache_enabled : Bool
  metaFile : JsonFile MetadataJson
  dataFile : JsonFile (List RawRecord)
  now : Int
  cache_days : Int
  all_repos : List Repo
  max_repositories : Nat
  commits_of : Repo → List RawRecord

/-- `self.use_cache = use_cache and settings.cache_enabled`
(data_fetcher.py line 45). -/
def FetchEnv.use_cache (env : FetchEnv) : Bool :=
  env.use_cache_arg && env.cache_enabled

/-- The commits a fresh fetch accumulates: `all_commits.extend(commits)`
over the filtered repositories, in order. -/
def fresh_commits (env : FetchEnv) : List RawRecord :=
  (fetch_repositories env.all_repos env.max_repositories).flatMap env.commits_of

/-- The fresh-fetch path of `fetch_all_commits` (data_fetcher.py lines
212-249): enumerate repositories, return an empty frame when none qualify,
otherwise loop (rate-limit check, then fetch, per repository), write both
cache files — data first, metadata second — only when `self.use_cache` and
at least one commit was obtained, and normalize. -/
def fresh_fetch (env : FetchEnv) : DataFrame × List Event :=
  let repos := fetch_repositories env.all_repos env.max_repositories
  if repos.isEmpty then (mkFrame [], [])
  else
    let all_commits := repos.flatMap env.commits_of
    let loopEvents :=
      repos.flatMap (fun r => [Event.rateLimitCheck, Event.fetchRepoCommits r.name])
    let writeEvents :=
      if env.use_cache && !all_commits.isEmpty then
        [Event.writeData, Event.writeMeta]
      else []
    (process_dataframe (mkFrame all_commits), loopEvents ++ writeEvents)

/-- `fetch_all_commits` (data_fetcher.py lines 196-249): when
`self.use_cache` holds and the metadata stamp is valid, load the raw cache
file; a truthy (non-empty) record list is normalized and returned with no
further action, while `None` (missing file) or an empty list falls through
to the fresh fetch.  Parse errors raised by `is_cache_valid` or `load_json`
propagate. -/
def fetch_all_commits (env : FetchEnv) :
    Except Unit (DataFrame × List Event) :=
  if env.use_cache then
    match is_cache_valid env.metaFile env.now env.cache_days with
    | .error e => .error e
    | .ok true =>
      match load_json env.dataFile with
      | .error e => .error e
      | .ok (some records) =>
        if !records.isEmpty then
          .ok (process_dataframe (mkFrame records), [])
        else .ok (fresh_fetch env)
      | .ok none => .ok (fresh_fetch env)
    | .ok false => .ok (fresh_fetch env)
  else .ok (fresh_fetch env)

/-- The run was served from the cache: caching on, metadata stamp valid,
and the raw cache file parsed to a truthy (non-empty) record list. -/
def cache_served (env : FetchEnv) : Prop :=
  env.use_cache = true ∧
  is_cache_valid env.metaFile env.now env.cache_days = .ok true ∧
  ∃ records, load_json env.dataFile = .ok (some records) ∧ records ≠ []

lemma loop_events_no_write (repos : List Repo) :
    Event.writeData ∉
      repos.flatMap (fun r => [Event.rateLimitCheck, Event.fetchRepoCommits r.name]) ∧
    Event.writeMeta ∉
      repos.flatMap (fun r => [Event.rateLimitCheck, Event.fetchRepoCommits r.name]) := by
  constructor
  · intro hmem
    rw [List.mem_flatMap] at hmem
    obtain ⟨r, _, hr⟩ := hmem
    simp at hr
  · intro hmem
    rw [List.mem_flatMap] at hmem
    obtain ⟨r, _, hr⟩ := hmem
    simp at hr

lemma fresh_fetch_trace (env : FetchEnv) :
    (fresh_fetch env).2 =
      (fetch_repositories env.all_repos env.max_repositories).flatMap
        (fun r => [Event.rateLimitCheck, Event.fetchRepoCommits r.name]) ++
      (if env.use_cache && !(fresh_commits env).isEmpty then
        [Event.writeData, Event.writeMeta]
      else []) := by
  unfold fresh_fetch fresh_commits
  by_cases h : (fetch_repositories env.all_repos env.max_repositories).isEmpty
  · rw [List.isEmpty_iff] at h
    simp [h]
  · simp only [h, Bool.false_eq_true, if_neg, not_false_iff]

lemma fetch_all_commits_fresh_or_cached (env : FetchEnv) (df : DataFrame)
    (tr : List Event) (h : fetch_all_commits env = .ok (df, tr)) :
    (cache_served env ∧ tr = []) ∨
    (¬cache_served env ∧ (df, tr) = fresh_fetch env) := by
  unfold fetch_all_commits at h
  by_cases huc : env.use_cache = true
  · rw [if_pos huc] at h
    cases hval : is_cache_valid env.metaFile env.now env.cache_days with
    | error e =>
      rw [hval] at h
      simp at h
    | ok b =>
      rw [hval] at h
      cases b with
      | false =>
        simp only [Except.ok.injEq] at h
        right
        refine ⟨fun hs => ?_, h.symm⟩
        rw [hs.2.1] at hval
        simp at hval
      | true =>
        cases hld : load_json env.dataFile with
        | error e =>
          rw [hld] at h
          simp at h
        | ok o =>
          rw [hld] at h
          cases o with
          | none =>
            simp only [Except.ok.injEq] at h
            right
            refine ⟨fun hs => ?_, h.symm⟩
            obtain ⟨records, hrec, _⟩ := hs.2.2
            rw [hrec] at hld
            simp at hld
          | some records =>
            cases records with
            | nil =>
              simp only [List.isEmpty_nil, Bool.not_true, Bool.false_eq_true,
                if_false, Except.ok.injEq] at h
              right
              refine ⟨fun hs => ?_, h.symm⟩
              obtain ⟨records2, hrec, hnil⟩ := hs.2.2
              rw [hrec] at hld
              simp at hld
              exact hnil hld
            | cons c cs =>
              simp only [List.isEmpty_cons, Bool.not_false, if_true,
                Except.ok.injEq, Prod.mk.injEq] at h
              left
              refine ⟨⟨huc, hval, c :: cs, hld, fun hc => List.noConfusion hc⟩,
                h.2.symm⟩
  · rw [if_neg huc] at h
    simp only [Except.ok.injEq] at h
    right
    exact ⟨fun hs => huc hs.1, h.symm⟩

/-- C9: in every successful run, on a fresh fetch with caching enabled and
at least one commit obtained the trace ends with exactly one raw-data write
immediately followed by exactly one metadata write (data before metadata,
nothing after, neither occurring earlier in the run); with caching
disabled, with zero commits obtained, or on a cache hit, neither cache file
is written at all. -/
theorem fetch_cache_write_discipline (env : FetchEnv) (df : DataFrame)
    (tr : List Event) (h : fetch_all_commits env = .ok (df, tr)) :
    (¬cache_served env → env.use_cache = true → fresh_commits env ≠ [] →
      ∃ pre, Event.writeData ∉ pre ∧ Event.writeMeta ∉ pre ∧
        tr = pre ++ [Event.writeData, Event.writeMeta]) ∧
    ((env.use_cache = false ∨ fresh_commits env = [] ∨ cache_served env) →
      Event.writeData ∉ tr ∧ Event.writeMeta ∉ tr) := by
  rcases fetch_all_commits_fresh_or_cached env df tr h with
    ⟨hserved, htr⟩ | ⟨hns, hfr⟩
  · constructor
    · intro hns; exact absurd hserved hns
    · intro _
      rw [htr]
      exact ⟨List.not_mem_nil _, List.not_mem_nil _⟩
  · have htr : tr = (fresh_fetch env).2 := by rw [← hfr]
    constructor
    · intro _ huc hcom
      refine ⟨(fetch_repositories env.all_repos env.max_repositories).flatMap
          (fun r => [Event.rateLimitCheck, Event.fetchRepoCommits r.name]),
        (loop_events_no_write _).1, (loop_events_no_write _).2, ?_⟩
      rw [htr, fresh_fetch_trace]
      have hcond : (env.use_cache && !(fresh_commits env).isEmpty) = true := by
        rw [huc, Bool.true_and, Bool.not_eq_true']
        cases hb : (fresh_commits env).isEmpty
        · rfl
        · rw [List.isEmpty_iff] at hb
          exact absurd hb hcom
      rw [hcond, if_pos rfl]
    · rintro (huc | hcom | hserved)
      · have hcond : (env.use_cache && !(fresh_commits env).isEmpty) = false := by
          rw [huc, Bool.false_and]
        rw [htr, fresh_fetch_trace, hcond]
        simp only [Bool.false_eq_true, if_neg, not_false_iff, List.append_nil]
        exact loop_events_no_write _
      · have hcond : (env.use_cache && !(fresh_commits env).isEmpty) = false := by
          rw [hcom]
          simp
        rw [htr, fresh_fetch_trace, hcond]
        simp only [Bool.false_eq_true, if_neg, not_false_iff, List.append_nil]
        exact loop_events_no_write _
      · exact absurd hserved hns

/-- A repository whose probe finds commits, for the concrete runs below. -/
def repoW : Repo := ⟨"r1", .commits true⟩

/-- The one commit record the concrete runs below fetch. -/
def recW : RawRecord :=
  ⟨"sha1", "msg", tsShared, "r1", "u/r1", "dev", []⟩

/-- A concrete environment with caching disabled and one repository. -/
def envNoCacheW : FetchEnv :=
  ⟨false, true, .missing, .missing, 0, 7, [repoW], 5, fun _ => [recW]⟩

/-- Witness for C9 at `envNoCacheW`: caching disabled, so the successful
run's concrete trace (one rate-limit check and one repository fetch)
contains no cache write. -/
theorem fetch_cache_write_discipline_witness :
    Event.writeData ∉ [Event.rateLimitCheck, Event.fetchRepoCommits "r1"] ∧
    Event.writeMeta ∉ [Event.rateLimitCheck, Event.fetchRepoCommits "r1"] :=
  (fetch_cache_write_discipline envNoCacheW
      (process_dataframe (mkFrame [recW]))
      [Event.rateLimitCheck, Event.fetchRepoCommits "r1"]
      (by decide)).2 (Or.inl rfl)

/-- A concrete environment with a valid metadata stamp but an unparseable
raw cache data file. -/
def envUnparseableData : FetchEnv :=
  ⟨true, true, .parsed ⟨true, some 0⟩, .unparseable, 0, 7, [repoW], 5,
    fun _ => [recW]⟩

/-- Counterexample to C10 as stated: with a valid metadata stamp and an
unparseable raw cache data file, `fetch_all_commits` does not silently fall
through to a fresh fetch — the `json.load` parse error propagates out of
the call. -/
theorem fetch_cache_unparseable_counterexample :
    fetch_all_commits envUnparseableData = .error () ∧
    fetch_all_commits envUnparseableData ≠ .ok (fresh_fetch envUnparseableData) := by
  decide

/-- C10 (amended): when caching is on and the metadata stamp is valid, a
missing raw cache data file or one parsing to an empty collection makes
`fetch_all_commits` silently fall through to the fresh network fetch, while
an unparseable raw cache data file makes the call raise the parse error; in
no such case does a valid metadata stamp alone produce a cached result. -/
theorem fetch_cache_data_fallthrough (env : FetchEnv)
    (huc : env.use_cache = true)
    (hval : is_cache_valid env.metaFile env.now env.cache_days = .ok true) :
    (env.dataFile = .missing ∨ env.dataFile = .parsed [] →
      fetch_all_commits env = .ok (fresh_fetch env)) ∧
    (env.dataFile = .unparseable → fetch_all_commits env = .error ()) := by
  constructor
  · rintro (hd | hd) <;>
      simp [fetch_all_commits, huc, hval, hd, load_json]
  · intro hd
    simp [fetch_all_commits, huc, hval, hd, load_json]

/-- A concrete environment with a valid metadata stamp and a missing raw
cache data file. -/
def envMissingData : FetchEnv :=
  ⟨true, true, .parsed ⟨true, some 0⟩, .missing, 0, 7, [repoW], 5,
    fun _ => [recW]⟩

/-- Witness for C10 (amended) at `envMissingData`: the valid stamp with a
missing data file falls through to the fresh fetch. -/
theorem fetch_cache_data_fallthrough_witness :
    fetch_all_commits envMissingData = .ok (fresh_fetch envMissingData) :=
  (fetch_cache_data_fallthrough envMissingData rfl (by decide)).1 (Or.inl rfl)

end GithubTimeLapse
